import Mathlib

/-!
Shallow embedding of the Method B routines of `src/content/DataTreeDemo.ipynb`
(`copy_dims`, `copy_vars`, `recursive_copy`): a manual depth-first copy of a
netCDF group tree that drops the reduction dimension "time" and replaces every
time-dependent variable by its arithmetic mean along the time axis.

Modelling choices:
- Python dicts (`.dimensions`, `.variables`, `.groups`, attribute sets) are
  assoc lists, preserving enumeration order.
- Array values are exact rationals (the notebook uses floating point; exact
  arithmetic models the intended arithmetic mean).
- An n-dimensional array is a shape together with a value function on index
  tuples.
- `netCDF4.Dataset.createVariable` fails when a declared dimension name does
  not resolve in the destination group or an ancestor; this is the
  `StructuralError` of the specification, modelled with `Except`.
-/

/-- A netCDF dimension definition: a fixed size, or the unlimited marker. -/
inductive DimDef where
  | fixed (size : Nat)
  | unlimited
deriving DecidableEq, Repr

/-- An n-dimensional array: a shape and a value at each index tuple. -/
structure NDArray where
  shape : List Nat
  val : List Nat → Rat

/-- The numpy reduction `data.mean(axis := t)` used by `copy_vars`: the axis at
position `t` is removed from the shape, and each remaining cell holds the
unweighted arithmetic mean of the source cells along that axis. -/
def NDArray.meanAxis (a : NDArray) (t : Nat) : NDArray :=
  NDArray.mk (a.shape.eraseIdx t)
    (fun ix =>
      (((List.range (a.shape.getD t 0)).map
          (fun j => a.val (ix.take t ++ j :: ix.drop t))).sum)
        / ((a.shape.getD t 0 : Nat) : Rat))

/-- The unweighted arithmetic mean of the values of `a` along axis `t`, with
the other indices fixed to `ix`: the sum over all positions `j` along axis `t`
of the value at `ix` with `j` inserted at position `t`, divided by the extent
of axis `t`. -/
def axisMean (a : NDArray) (t : Nat) (ix : List Nat) : Rat :=
  (((List.range (a.shape.getD t 0)).map
      (fun j => a.val (ix.take t ++ j :: ix.drop t))).sum)
    / ((a.shape.getD t 0 : Nat) : Rat)

/-- Attribute maps (`ncattrs` / `getncattr` / `setncatts`): name-value pairs in
enumeration order; values are opaque. -/
abbrev AttrMap := List (String × String)

/-- A netCDF variable: element datatype, declared dimension-name tuple,
attributes, and its array of values. -/
structure NcVariable where
  datatype : String
  dims : List String
  attrs : AttrMap
  data : NDArray

/-- Errors of the copy: an unresolvable dimension reference detected by
`createVariable` (the specification's `StructuralError`). -/
inductive NcError where
  | structuralError (dim : String)
deriving DecidableEq, Repr

mutual
/-- A netCDF group: attributes, dimensions, variables, and child groups, each
in enumeration order. -/
inductive NcGroup where
  | mk (attrs : AttrMap) (dimensions : List (String × DimDef))
      (vars : List (String × NcVariable)) (groups : NcChildren) : NcGroup

/-- The named child groups of a group, in enumeration order. -/
inductive NcChildren where
  | nil : NcChildren
  | cons (name : String) (g : NcGroup) (rest : NcChildren) : NcChildren
end

def NcGroup.attrs : NcGroup → AttrMap
  | .mk a _ _ _ => a

def NcGroup.dimensions : NcGroup → List (String × DimDef)
  | .mk _ d _ _ => d

def NcGroup.vars : NcGroup → List (String × NcVariable)
  | .mk _ _ v _ => v

def NcGroup.groups : NcGroup → NcChildren
  | .mk _ _ _ g => g

/-- Embeds `copy_dims(src_group, dst_group)` of the notebook: walk the source group's
dimensions in order; skip "time" entirely; skip a name already present in the
destination group; otherwise append the dimension with its size or unlimited
marker unchanged.  `dst` is the destination group's dimension list built so
far (the destination group starts empty). -/
def copy_dims (src : List (String × DimDef)) (dst : List (String × DimDef)) :
    List (String × DimDef) :=
  match src with
  | [] => dst
  | (dim_name, dim) :: rest =>
    if dim_name = "time" then
      copy_dims rest dst
    else if dim_name ∈ dst.map Prod.fst then
      copy_dims rest dst
    else
      copy_dims rest
        (dst ++ [(dim_name,
          match dim with
          | DimDef.unlimited => DimDef.unlimited
          | DimDef.fixed n => DimDef.fixed n)])

/-- Dimension resolution performed by `netCDF4`'s `createVariable` on the
destination: the first declared dimension name that is not visible in the
destination group or an ancestor (`scope`), if any. -/
def findDanglingDim (scope : List String) (dims : List String) : Option String :=
  dims.find? (fun d => decide (d ∉ scope))

/-- The body of the `copy_vars` loop of the notebook for one source variable:
drop a variable named "time"; copy "lat"/"lon" as-is; average a variable whose
dimension tuple contains "time" along that axis, removing "time" from the
tuple; copy any other variable as-is.  Creating a variable fails when a
declared dimension does not resolve in the destination scope. -/
def copy_vars_step (scope : List String) (var_name : String) (var : NcVariable) :
    Except NcError (Option (String × NcVariable)) :=
  if var_name = "time" then
    Except.ok none
  else if var_name = "lat" ∨ var_name = "lon" then
    match findDanglingDim scope var.dims with
    | some d => Except.error (NcError.structuralError d)
    | none => Except.ok (some (var_name, var))
  else if var.dims.contains "time" then
    match findDanglingDim scope (var.dims.filter (fun d => decide (d ≠ "time"))) with
    | some d => Except.error (NcError.structuralError d)
    | none =>
      Except.ok (some (var_name,
        NcVariable.mk var.datatype (var.dims.filter (fun d => decide (d ≠ "time")))
          var.attrs (var.data.meanAxis (var.dims.indexOf "time"))))
  else
    match findDanglingDim scope var.dims with
    | some d => Except.error (NcError.structuralError d)
    | none => Except.ok (some (var_name, var))

/-- Embeds `copy_vars(src_group, dst_group)` of the notebook: process the source
group's variables in order, aborting on the first structural error. -/
def copy_vars (scope : List String) :
    List (String × NcVariable) → Except NcError (List (String × NcVariable))
  | [] => Except.ok []
  | (var_name, var) :: rest =>
    match copy_vars_step scope var_name var with
    | Except.error e => Except.error e
    | Except.ok r =>
      match copy_vars scope rest with
      | Except.error e => Except.error e
      | Except.ok rest' =>
        match r with
        | none => Except.ok rest'
        | some p => Except.ok (p :: rest')

mutual
/-- Embeds `recursive_copy(src_group, dst_group)` of the notebook: copy the
attributes verbatim, copy the dimensions, copy the variables, then recurse
into each child group in order, creating it under the destination.  `env` is
the list of dimension names visible in the destination's ancestors. -/
def recursive_copy (env : List String) : NcGroup → Except NcError NcGroup
  | NcGroup.mk attrs dims vs children =>
    match copy_vars ((copy_dims dims []).map Prod.fst ++ env) vs with
    | Except.error e => Except.error e
    | Except.ok dst_vars =>
      match copy_children ((copy_dims dims []).map Prod.fst ++ env) children with
      | Except.error e => Except.error e
      | Except.ok dst_children =>
        Except.ok (NcGroup.mk attrs (copy_dims dims []) dst_vars dst_children)

/-- The child loop of `recursive_copy`: create each destination child group in
source order and recurse, aborting on the first error. -/
def copy_children (env : List String) : NcChildren → Except NcError NcChildren
  | NcChildren.nil => Except.ok NcChildren.nil
  | NcChildren.cons name g rest =>
    match recursive_copy env g with
    | Except.error e => Except.error e
    | Except.ok g' =>
      match copy_children env rest with
      | Except.error e => Except.error e
      | Except.ok rest' => Except.ok (NcChildren.cons name g' rest')
end


mutual
/-- Two groups have the same topology: the same child names in the same
order, with recursively matching subtrees; contents are ignored. -/
def sameTopo : NcGroup → NcGroup → Bool
  | NcGroup.mk _ _ _ c₁, NcGroup.mk _ _ _ c₂ => sameTopoChildren c₁ c₂

/-- Children lists have the same names in the same order with matching
subtree topologies. -/
def sameTopoChildren : NcChildren → NcChildren → Bool
  | NcChildren.nil, NcChildren.nil => true
  | NcChildren.cons n₁ g₁ r₁, NcChildren.cons n₂ g₂ r₂ =>
    decide (n₁ = n₂) && sameTopo g₁ g₂ && sameTopoChildren r₁ r₂
  | _, _ => false
end

mutual
/-- No dimension and no variable named "time" anywhere in the tree. -/
def noTimeNames : NcGroup → Bool
  | NcGroup.mk _ dims vs children =>
    dims.all (fun p => decide (p.1 ≠ "time")) &&
    vs.all (fun p => decide (p.1 ≠ "time")) &&
    noTimeNamesChildren children

def noTimeNamesChildren : NcChildren → Bool
  | NcChildren.nil => true
  | NcChildren.cons _ g rest => noTimeNames g && noTimeNamesChildren rest
end

mutual
/-- Some variable in the tree declares a dimension name that does not resolve
to a dimension of its own group or an ancestor group (`scope` holds the
ancestors' dimension names). -/
def hasDanglingAny (scope : List String) : NcGroup → Bool
  | NcGroup.mk _ dims vs children =>
    vs.any (fun p =>
      p.2.dims.any (fun d => decide (d ∉ dims.map Prod.fst ++ scope))) ||
    hasDanglingAnyChildren (dims.map Prod.fst ++ scope) children

def hasDanglingAnyChildren (scope : List String) : NcChildren → Bool
  | NcChildren.nil => false
  | NcChildren.cons _ g rest =>
    hasDanglingAny scope g || hasDanglingAnyChildren scope rest
end

mutual
/-- Some variable in the tree that is not itself named "time" declares a
dimension name other than "time" that does not resolve to a dimension of its
own group or an ancestor group. -/
def hasDanglingStrict (scope : List String) : NcGroup → Bool
  | NcGroup.mk _ dims vs children =>
    vs.any (fun p =>
      decide (p.1 ≠ "time") &&
      p.2.dims.any (fun d =>
        decide (d ≠ "time") && decide (d ∉ dims.map Prod.fst ++ scope))) ||
    hasDanglingStrictChildren (dims.map Prod.fst ++ scope) children

def hasDanglingStrictChildren (scope : List String) : NcChildren → Bool
  | NcChildren.nil => false
  | NcChildren.cons _ g rest =>
    hasDanglingStrict scope g || hasDanglingStrictChildren scope rest
end

mutual
/-- The tree is already averaged and well formed with respect to the ambient
dimension names `scope`: in every group the dimension names are distinct and
none is "time", no variable is named "time" or mentions "time" in its
dimension tuple, and every variable's declared dimensions resolve in its own
group or an ancestor. -/
def pureCopyCond (scope : List String) : NcGroup → Bool
  | NcGroup.mk _ dims vs children =>
    dims.all (fun p => decide (p.1 ≠ "time")) &&
    decide (dims.map Prod.fst).Nodup &&
    vs.all (fun p =>
      decide (p.1 ≠ "time") &&
      !p.2.dims.contains "time" &&
      p.2.dims.all (fun d => decide (d ∈ dims.map Prod.fst ++ scope))) &&
    pureCopyCondChildren (dims.map Prod.fst ++ scope) children

def pureCopyCondChildren (scope : List String) : NcChildren → Bool
  | NcChildren.nil => true
  | NcChildren.cons _ g rest =>
    pureCopyCond scope g && pureCopyCondChildren scope rest
end

/-- The whole Method B operation of the notebook: `recursive_copy(src, dst)`
started at the two roots (the destination file is created empty, so the
ambient destination dimension scope is empty). -/
def average (sourceRoot : NcGroup) : Except NcError NcGroup :=
  recursive_copy [] sourceRoot

/-- The names and dimension tuples of the variables of the root group. -/
def rootVarDims (g : NcGroup) : List (String × List String) :=
  g.vars.map (fun p => (p.1, p.2.dims))

/-- Which of the two open files a handle refers to, for the imperative
embedding: the read-only source or the destination being written. -/
inductive Side where
  | src
  | dst
deriving DecidableEq

/-- The state of the two open netCDF files during the traversal. -/
structure FileState where
  src : NcGroup
  dst : NcGroup

/-- A netCDF group handle: the path of group names from the file root. -/
abbrev GroupPath := List String

def lookupChild : NcChildren → String → Option NcGroup
  | NcChildren.nil, _ => none
  | NcChildren.cons n g rest, name =>
    if n = name then some g else lookupChild rest name

def getGroup : NcGroup → GroupPath → Option NcGroup
  | g, [] => some g
  | g, n :: rest =>
    match lookupChild g.groups n with
    | none => none
    | some child => getGroup child rest

def appendChild : NcChildren → String → NcGroup → NcChildren
  | NcChildren.nil, n, g => NcChildren.cons n g NcChildren.nil
  | NcChildren.cons m h rest, n, g => NcChildren.cons m h (appendChild rest n g)

def updateChild : NcChildren → String → (NcGroup → NcGroup) → NcChildren
  | NcChildren.nil, _, _ => NcChildren.nil
  | NcChildren.cons n g rest, name, f =>
    if n = name then NcChildren.cons n (f g) rest
    else NcChildren.cons n g (updateChild rest name f)

/-- Apply `f` to the group addressed by `path`, leaving the rest of the tree
unchanged. -/
def updateGroup (f : NcGroup → NcGroup) : NcGroup → GroupPath → NcGroup
  | g, [] => f g
  | NcGroup.mk a d v c, n :: rest =>
    NcGroup.mk a d v (updateChild c n (fun child => updateGroup f child rest))

/-- The dimension names visible from the group at `path`: its own dimensions
first, then each ancestor up to the root (netCDF name resolution). -/
def pathScope : NcGroup → GroupPath → List String
  | g, [] => g.dimensions.map Prod.fst
  | g, n :: rest =>
    (match lookupChild g.groups n with
     | none => []
     | some child => pathScope child rest) ++ g.dimensions.map Prod.fst

/-- The effect monad of the imperative embedding: an action reads and writes
the two open files and may abort with an error; the file state at the moment
of an abort is retained, so mutation up to the abort stays observable. -/
def NcM (α : Type) : Type := FileState → Except NcError α × FileState

def NcM.pure {α : Type} (a : α) : NcM α := fun s => (Except.ok a, s)

def NcM.bind {α β : Type} (m : NcM α) (f : α → NcM β) : NcM β := fun s =>
  match m s with
  | (Except.error e, s₁) => (Except.error e, s₁)
  | (Except.ok a, s₁) => f a s₁

def sideRoot (s : FileState) : Side → NcGroup
  | Side.src => s.src
  | Side.dst => s.dst

/-- Read the group object addressed by a handle. -/
def readGroup (side : Side) (path : GroupPath) : NcM NcGroup := fun s =>
  match getGroup (sideRoot s side) path with
  | none => (Except.error (NcError.structuralError "group"), s)
  | some g => (Except.ok g, s)

/-- Mutate the group addressed by a handle, on either file. -/
def modifyGroup (side : Side) (path : GroupPath) (f : NcGroup → NcGroup) :
    NcM Unit := fun s =>
  match side with
  | Side.src => (Except.ok (), FileState.mk (updateGroup f s.src path) s.dst)
  | Side.dst => (Except.ok (), FileState.mk s.src (updateGroup f s.dst path))

/-- Embeds `group.setncatts(attrs)` on a freshly created group. -/
def setncatts (side : Side) (path : GroupPath) (attrs : AttrMap) : NcM Unit :=
  modifyGroup side path (fun g => NcGroup.mk attrs g.dimensions g.vars g.groups)

/-- Embeds `group.createDimension(name, size_or_None)`. -/
def createDimension (side : Side) (path : GroupPath) (name : String)
    (d : DimDef) : NcM Unit :=
  modifyGroup side path
    (fun g => NcGroup.mk g.attrs (g.dimensions ++ [(name, d)]) g.vars g.groups)

/-- Embeds `group.createGroup(name)`: an empty child group is appended. -/
def createGroup (side : Side) (path : GroupPath) (name : String) : NcM Unit :=
  modifyGroup side path
    (fun g => NcGroup.mk g.attrs g.dimensions g.vars
      (appendChild g.groups name (NcGroup.mk [] [] [] NcChildren.nil)))

/-- Embeds `group.createVariable(name, datatype, dims)`: fails when a declared
dimension does not resolve in the group or an ancestor; otherwise a variable
with no attributes and no data yet is appended. -/
def createVariable (side : Side) (path : GroupPath) (name : String)
    (datatype : String) (dims : List String) : NcM Unit := fun s =>
  match findDanglingDim (pathScope (sideRoot s side) path) dims with
  | some d => (Except.error (NcError.structuralError d), s)
  | none =>
    (modifyGroup side path
      (fun g => NcGroup.mk g.attrs g.dimensions
        (g.vars ++ [(name, NcVariable.mk datatype dims [] (NDArray.mk [] (fun _ => 0)))])
        g.groups)) s

/-- Embeds `var.setncatts(attrs)` on a freshly created variable. -/
def setVarAttrs (side : Side) (path : GroupPath) (name : String)
    (attrs : AttrMap) : NcM Unit :=
  modifyGroup side path
    (fun g => NcGroup.mk g.attrs g.dimensions
      (g.vars.map (fun p =>
        if p.1 = name then (p.1, NcVariable.mk p.2.datatype p.2.dims attrs p.2.data)
        else p))
      g.groups)

/-- Embeds the array assignment `var[:] = data`. -/
def writeVar (side : Side) (path : GroupPath) (name : String)
    (data : NDArray) : NcM Unit :=
  modifyGroup side path
    (fun g => NcGroup.mk g.attrs g.dimensions
      (g.vars.map (fun p =>
        if p.1 = name then (p.1, NcVariable.mk p.2.datatype p.2.dims p.2.attrs data)
        else p))
      g.groups)

/-- The `copy_dims` loop of the notebook as imperative actions against the
destination handle. -/
def copy_dims_loop (dstPath : GroupPath) : List (String × DimDef) → NcM Unit
  | [] => NcM.pure ()
  | (dim_name, dim) :: rest =>
    if dim_name = "time" then
      copy_dims_loop dstPath rest
    else
      NcM.bind (readGroup Side.dst dstPath) (fun dst_group =>
        if dim_name ∈ dst_group.dimensions.map Prod.fst then
          copy_dims_loop dstPath rest
        else
          NcM.bind
            (createDimension Side.dst dstPath dim_name
              (match dim with
               | DimDef.unlimited => DimDef.unlimited
               | DimDef.fixed n => DimDef.fixed n))
            (fun _ => copy_dims_loop dstPath rest))

/-- The `copy_vars` loop of the notebook as imperative actions against the
destination handle. -/
def copy_vars_loop (dstPath : GroupPath) : List (String × NcVariable) → NcM Unit
  | [] => NcM.pure ()
  | (var_name, var) :: rest =>
    if var_name = "time" then
      copy_vars_loop dstPath rest
    else if var_name = "lat" ∨ var_name = "lon" then
      NcM.bind (createVariable Side.dst dstPath var_name var.datatype var.dims)
        (fun _ => NcM.bind (setVarAttrs Side.dst dstPath var_name var.attrs)
          (fun _ => NcM.bind (writeVar Side.dst dstPath var_name var.data)
            (fun _ => copy_vars_loop dstPath rest)))
    else if var.dims.contains "time" then
      NcM.bind (createVariable Side.dst dstPath var_name var.datatype
          (var.dims.filter (fun d => decide (d ≠ "time"))))
        (fun _ => NcM.bind (setVarAttrs Side.dst dstPath var_name var.attrs)
          (fun _ => NcM.bind (writeVar Side.dst dstPath var_name
              (var.data.meanAxis (var.dims.indexOf "time")))
            (fun _ => copy_vars_loop dstPath rest)))
    else
      NcM.bind (createVariable Side.dst dstPath var_name var.datatype var.dims)
        (fun _ => NcM.bind (setVarAttrs Side.dst dstPath var_name var.attrs)
          (fun _ => NcM.bind (writeVar Side.dst dstPath var_name var.data)
            (fun _ => copy_vars_loop dstPath rest)))

mutual
/-- Embeds `recursive_copy(src_group, dst_group)` as imperative actions: the source
group object is a read value, the destination is addressed by its handle. -/
def recursive_copy_imp : NcGroup → GroupPath → NcM Unit
  | NcGroup.mk attrs dims vs children, dstPath =>
    NcM.bind (setncatts Side.dst dstPath attrs)
      (fun _ => NcM.bind (copy_dims_loop dstPath dims)
        (fun _ => NcM.bind (copy_vars_loop dstPath vs)
          (fun _ => copy_children_imp children dstPath)))

/-- The child loop of the imperative `recursive_copy`. -/
def copy_children_imp : NcChildren → GroupPath → NcM Unit
  | NcChildren.nil, _ => NcM.pure ()
  | NcChildren.cons name subgrp rest, dstPath =>
    NcM.bind (createGroup Side.dst dstPath name)
      (fun _ => NcM.bind (recursive_copy_imp subgrp (dstPath ++ [name]))
        (fun _ => copy_children_imp rest dstPath))
end

/-- The whole Method B cell: open the source root and recursively copy it
into the destination root. -/
def averageFile : NcM Unit :=
  NcM.bind (readGroup Side.src []) (fun root => recursive_copy_imp root [])

/-- An imperative action never changes the source file. -/
def PreservesSrc {α : Type} (m : NcM α) : Prop :=
  ∀ s : FileState, ((m s).2).src = s.src

/-- Example variable for the C1 witness: precipitation over (time, lat). -/
def exVarC1 : NcVariable :=
  NcVariable.mk "f4" ["time", "lat"] [("units", "mm/hr")]
    (NDArray.mk [3, 2] (fun ix => ((ix.headD 0 : Nat) : Rat)))

/-- Example variable for the C3 witness: a latitude-shaped field without a
time axis. -/
def exVarC3 : NcVariable :=
  NcVariable.mk "f8" ["lat"] [("units", "degrees_north")]
    (NDArray.mk [2] (fun _ => (1 : Rat)))

/-- Example tree for the C2 witness: a root with one child group. -/
def exGroupC2 : NcGroup :=
  NcGroup.mk [("title", "hurricane")] [("lat", DimDef.fixed 2)] []
    (NcChildren.cons "observed" (NcGroup.mk [] [] [] NcChildren.nil) NcChildren.nil)

/-- Example tree for the C4 witness: a time dimension and a time coordinate
variable that must both be dropped. -/
def exGroupC4 : NcGroup :=
  NcGroup.mk [] [("time", DimDef.unlimited), ("lat", DimDef.fixed 2)]
    [("time", NcVariable.mk "f8" ["time"] [] (NDArray.mk [3] (fun _ => 0)))]
    NcChildren.nil

/-- The destination tree the operation produces from `exGroupC4`. -/
def dstGroupC4 : NcGroup :=
  NcGroup.mk [] [("lat", DimDef.fixed 2)] [] NcChildren.nil

/-- Example variable for the C5 witness: an ordinary latitude coordinate. -/
def exVarC5 : NcVariable :=
  NcVariable.mk "f8" ["lat"] [("units", "degrees_north")]
    (NDArray.mk [2] (fun _ => (0 : Rat)))

/-- Counterexample tree for C5: an allow-listed variable "lat" whose
dimension tuple references "time". -/
def exGroupC5 : NcGroup :=
  NcGroup.mk [] [("time", DimDef.fixed 3)]
    [("lat", NcVariable.mk "f8" ["time"] [] (NDArray.mk [3] (fun _ => 0)))]
    NcChildren.nil

/-- Counterexample tree for C6: a variable named "time" declaring the
dangling dimension "depth". -/
def exGroupC6 : NcGroup :=
  NcGroup.mk [] []
    [("time", NcVariable.mk "f8" ["depth"] [] (NDArray.mk [2] (fun _ => 0)))]
    NcChildren.nil

/-- Witness tree for the amended C6: an ordinary variable declaring the
dangling dimension "depth". -/
def exGroupC6w : NcGroup :=
  NcGroup.mk [] []
    [("precipitation", NcVariable.mk "f8" ["depth"] [] (NDArray.mk [2] (fun _ => 0)))]
    NcChildren.nil

/-- Counterexample tree for C7: no dimension or variable is named "time",
yet a variable's dimension tuple references "time" (a dangling reference). -/
def exGroupC7 : NcGroup :=
  NcGroup.mk [] []
    [("v", NcVariable.mk "f8" ["time"] [] (NDArray.mk [3] (fun _ => 0)))]
    NcChildren.nil

/-- Witness tree for the amended C7: a well-formed, already-averaged tree. -/
def exGroupC7w : NcGroup :=
  NcGroup.mk [("title", "averaged")] [("lat", DimDef.fixed 2)]
    [("v", NcVariable.mk "f8" ["lat"] [("units", "mm")]
      (NDArray.mk [2] (fun _ => (1 : Rat))))]
    (NcChildren.cons "observed" (NcGroup.mk [] [] [] NcChildren.nil) NcChildren.nil)

/-- Example source dimension list for the C8 witness. -/
def exDimsC8src : List (String × DimDef) :=
  [("time", DimDef.unlimited), ("lat", DimDef.fixed 5), ("lon", DimDef.fixed 6)]

/-- Example destination dimension list for the C8 witness. -/
def exDimsC8dst : List (String × DimDef) :=
  [("lat", DimDef.fixed 5)]

/-- Example tree for the C10 witness. -/
def exGroupC10 : NcGroup :=
  NcGroup.mk [] [("lon", DimDef.fixed 4)] [] NcChildren.nil

theorem DimDef.copy_eq (d : DimDef) :
    (match d with
      | DimDef.unlimited => DimDef.unlimited
      | DimDef.fixed n => DimDef.fixed n) = d := by
  cases d <;> rfl

theorem copy_dims_no_time (src : List (String × DimDef)) :
    ∀ dst : List (String × DimDef), (∀ p ∈ dst, p.1 ≠ "time") →
      ∀ p ∈ copy_dims src dst, p.1 ≠ "time" := by
  induction src with
  | nil => intro dst h; simpa [copy_dims] using h
  | cons hd tl ih =>
    intro dst h
    obtain ⟨n, d⟩ := hd
    by_cases hn : n = "time"
    · simpa [copy_dims, hn] using ih dst h
    · by_cases hm : n ∈ dst.map Prod.fst
      · simpa [copy_dims, hn, hm] using ih dst h
      · simp only [copy_dims, hn, hm, if_false, if_true, ite_false, ite_true]
        apply ih
        intro p hp
        rcases List.mem_append.mp hp with h1 | h2
        · exact h p h1
        · simp only [List.mem_singleton] at h2
          subst h2
          exact hn

theorem lookup_cons_ne_key {β : Type} (a n : String) (d : β) (tl : List (String × β))
    (h : a ≠ n) : List.lookup a ((n, d) :: tl) = List.lookup a tl := by
  rw [List.lookup_cons, show (a == n) = false from beq_eq_false_iff_ne.mpr h]

theorem lookup_append_left_keys (l₁ l₂ : List (String × DimDef)) (a : String)
    (h : a ∈ l₁.map Prod.fst) : (l₁ ++ l₂).lookup a = l₁.lookup a := by
  induction l₁ with
  | nil => simp at h
  | cons hd tl ih =>
    obtain ⟨n, d⟩ := hd
    by_cases hn : a = n
    · simp [List.lookup_cons, hn]
    · have htl : a ∈ tl.map Prod.fst := by
        simp only [List.map_cons, List.mem_cons] at h
        rcases h with h | h
        · exact absurd h hn
        · exact h
      simp [List.lookup_cons, hn, ih htl]

theorem lookup_append_right_keys (l₁ l₂ : List (String × DimDef)) (a : String)
    (h : a ∉ l₁.map Prod.fst) : (l₁ ++ l₂).lookup a = l₂.lookup a := by
  induction l₁ with
  | nil => simp
  | cons hd tl ih =>
    obtain ⟨n, d⟩ := hd
    simp only [List.map_cons, List.mem_cons, not_or] at h
    rw [List.cons_append, lookup_cons_ne_key a n d _ h.1, ih h.2]

theorem copy_dims_lookup_stable (src : List (String × DimDef)) :
    ∀ dst : List (String × DimDef), ∀ a, a ∈ dst.map Prod.fst →
      (copy_dims src dst).lookup a = dst.lookup a := by
  induction src with
  | nil => intro dst a _; simp [copy_dims]
  | cons hd tl ih =>
    intro dst a ha
    obtain ⟨n, d⟩ := hd
    by_cases hn : n = "time"
    · simpa [copy_dims, hn] using ih dst a ha
    · by_cases hm : n ∈ dst.map Prod.fst
      · simpa [copy_dims, hn, hm] using ih dst a ha
      · simp only [copy_dims, hn, hm, if_false, if_true, ite_false, ite_true]
        have ha' : a ∈ (dst ++ [(n,
            match d with
            | DimDef.unlimited => DimDef.unlimited
            | DimDef.fixed k => DimDef.fixed k)]).map Prod.fst := by
          rw [List.map_append]
          exact List.mem_append.mpr (Or.inl ha)
        rw [ih _ a ha', lookup_append_left_keys _ _ a ha]

theorem copy_dims_countP_stable (src : List (String × DimDef)) :
    ∀ dst : List (String × DimDef), ∀ a, a ∈ dst.map Prod.fst →
      (copy_dims src dst).countP (fun p => p.1 == a) =
        dst.countP (fun p => p.1 == a) := by
  induction src with
  | nil => intro dst a _; simp [copy_dims]
  | cons hd tl ih =>
    intro dst a ha
    obtain ⟨n, d⟩ := hd
    by_cases hn : n = "time"
    · simpa [copy_dims, hn] using ih dst a ha
    · by_cases hm : n ∈ dst.map Prod.fst
      · simpa [copy_dims, hn, hm] using ih dst a ha
      · simp only [copy_dims, hn, hm, if_false, if_true, ite_false, ite_true]
        have hna : ¬ (n = a) := fun h => hm (h ▸ ha)
        have ha' : a ∈ (dst ++ [(n,
            match d with
            | DimDef.unlimited => DimDef.unlimited
            | DimDef.fixed k => DimDef.fixed k)]).map Prod.fst := by
          rw [List.map_append]
          exact List.mem_append.mpr (Or.inl ha)
        rw [ih _ a ha', List.countP_append]
        simp [hna]

theorem copy_dims_new (src : List (String × DimDef)) :
    ∀ dst : List (String × DimDef), ∀ a, a ≠ "time" → a ∉ dst.map Prod.fst →
      (src.lookup a).isSome →
      (copy_dims src dst).lookup a = src.lookup a := by
  induction src with
  | nil => intro dst a _ _ hs; simp [List.lookup] at hs
  | cons hd tl ih =>
    intro dst a hat had hs
    obtain ⟨n, d⟩ := hd
    by_cases han : a = n
    · subst han
      have hn : ¬ (a = "time") := hat
      simp only [copy_dims, hn, if_false, ite_false]
      by_cases hm : a ∈ dst.map Prod.fst
      · exact absurd hm had
      · simp only [hm, if_false, ite_false]
        have hkey : a ∈ (dst ++ [(a,
            match d with
            | DimDef.unlimited => DimDef.unlimited
            | DimDef.fixed k => DimDef.fixed k)]).map Prod.fst := by
          rw [List.map_append]
          exact List.mem_append.mpr (Or.inr (by simp))
        rw [copy_dims_lookup_stable tl _ a hkey,
          lookup_append_right_keys _ _ a had]
        simp [List.lookup_cons, DimDef.copy_eq]
    · have hstep : List.lookup a ((n, d) :: tl) = List.lookup a tl :=
        lookup_cons_ne_key a n d tl han
      rw [hstep] at hs ⊢
      by_cases hn : n = "time"
      · simpa [copy_dims, hn] using ih dst a hat had hs
      · by_cases hm : n ∈ dst.map Prod.fst
        · simpa [copy_dims, hn, hm] using ih dst a hat had hs
        · simp only [copy_dims, hn, hm, if_false, if_true, ite_false, ite_true]
          apply ih _ a hat _ hs
          rw [List.map_append]
          intro hmem
          rcases List.mem_append.mp hmem with h1 | h2
          · exact had h1
          · simp only [List.map_cons, List.map_nil, List.mem_cons,
              List.not_mem_nil, or_false] at h2
            exact han h2

theorem copy_dims_keys_subset (src : List (String × DimDef)) :
    ∀ dst : List (String × DimDef), ∀ x ∈ (copy_dims src dst).map Prod.fst,
      x ∈ dst.map Prod.fst ∨ x ∈ src.map Prod.fst := by
  induction src with
  | nil => intro dst x hx; exact Or.inl (by simpa [copy_dims] using hx)
  | cons hd tl ih =>
    intro dst x hx
    obtain ⟨n, d⟩ := hd
    by_cases hn : n = "time"
    · rcases ih dst x (by simpa [copy_dims, hn] using hx) with h | h
      · exact Or.inl h
      · exact Or.inr (by simp [h])
    · by_cases hm : n ∈ dst.map Prod.fst
      · rcases ih dst x (by simpa [copy_dims, hn, hm] using hx) with h | h
        · exact Or.inl h
        · exact Or.inr (by simp [h])
      · simp only [copy_dims, hn, hm, if_false, if_true, ite_false, ite_true] at hx
        rcases ih _ x hx with h | h
        · rw [List.map_append] at h
          rcases List.mem_append.mp h with h1 | h2
          · exact Or.inl h1
          · simp only [List.map_cons, List.map_nil, List.mem_cons,
              List.not_mem_nil, or_false] at h2
            exact Or.inr (by simp [h2])
        · exact Or.inr (by simp [h])

theorem findDanglingDim_none_iff (scope : List String) (dims : List String) :
    findDanglingDim scope dims = none ↔ ∀ d ∈ dims, d ∈ scope := by
  simp [findDanglingDim, List.find?_eq_none]

theorem findDanglingDim_ne_none (scope : List String) (dims : List String)
    (d : String) (hd : d ∈ dims) (hds : d ∉ scope) :
    findDanglingDim scope dims ≠ none := by
  intro h
  exact hds ((findDanglingDim_none_iff scope dims).mp h d hd)

theorem copy_vars_step_timeless (scope : List String) (name : String) (v : NcVariable)
    (hn : name ≠ "time") (ht : v.dims.contains "time" = false)
    (hres : findDanglingDim scope v.dims = none) :
    copy_vars_step scope name v = Except.ok (some (name, v)) := by
  have htt : ¬ (v.dims.contains "time" = true) := by
    intro hcontra
    rw [ht] at hcontra
    exact Bool.false_ne_true hcontra
  by_cases hc : name = "lat" ∨ name = "lon"
  · unfold copy_vars_step
    rw [if_neg hn, if_pos hc, hres]
  · unfold copy_vars_step
    rw [if_neg hn, if_neg hc, if_neg htt, hres]

theorem copy_vars_step_allowlist (scope : List String) (name : String) (v : NcVariable)
    (hc : name = "lat" ∨ name = "lon")
    (hres : findDanglingDim scope v.dims = none) :
    copy_vars_step scope name v = Except.ok (some (name, v)) := by
  have hn : name ≠ "time" := by rcases hc with h | h <;> subst h <;> decide
  unfold copy_vars_step
  rw [if_neg hn, if_pos hc, hres]

theorem copy_vars_step_dangle (scope : List String) (name : String) (v : NcVariable)
    (d : String) (hn : name ≠ "time") (hd : d ∈ v.dims) (hdt : d ≠ "time")
    (hds : d ∉ scope) :
    (copy_vars_step scope name v).isOk = false := by
  unfold copy_vars_step
  rw [if_neg hn]
  by_cases hc : name = "lat" ∨ name = "lon"
  · rw [if_pos hc]
    cases hfd : findDanglingDim scope v.dims with
    | none => exact absurd hfd (findDanglingDim_ne_none scope _ d hd hds)
    | some d' => rfl
  · rw [if_neg hc]
    by_cases htime : v.dims.contains "time" = true
    · rw [if_pos htime]
      have hd' : d ∈ v.dims.filter (fun x => decide (x ≠ "time")) := by
        simp only [List.mem_filter, decide_eq_true_eq]
        exact ⟨hd, hdt⟩
      cases hfd : findDanglingDim scope (v.dims.filter (fun x => decide (x ≠ "time"))) with
      | none => exact absurd hfd (findDanglingDim_ne_none scope _ d hd' hds)
      | some d' => rfl
    · rw [if_neg htime]
      cases hfd : findDanglingDim scope v.dims with
      | none => exact absurd hfd (findDanglingDim_ne_none scope _ d hd hds)
      | some d' => rfl

theorem copy_vars_step_shape (scope : List String) (name : String) (v : NcVariable)
    (r : Option (String × NcVariable))
    (h : copy_vars_step scope name v = Except.ok r) :
    r = none ∨ (name ≠ "time" ∧ ∃ v', r = some (name, v')) := by
  unfold copy_vars_step at h
  by_cases hn : name = "time"
  · rw [if_pos hn] at h
    left
    exact (Except.ok.injEq .. ▸ h).symm
  · rw [if_neg hn] at h
    right
    refine ⟨hn, ?_⟩
    by_cases hc : name = "lat" ∨ name = "lon"
    · rw [if_pos hc] at h
      cases hfd : findDanglingDim scope v.dims with
      | none =>
        rw [hfd] at h
        exact ⟨v, (Except.ok.injEq .. ▸ h).symm⟩
      | some d' => rw [hfd] at h; cases h
    · rw [if_neg hc] at h
      by_cases htime : v.dims.contains "time" = true
      · rw [if_pos htime] at h
        cases hfd : findDanglingDim scope (v.dims.filter (fun x => decide (x ≠ "time"))) with
        | none =>
          rw [hfd] at h
          exact ⟨_, (Except.ok.injEq .. ▸ h).symm⟩
        | some d' => rw [hfd] at h; cases h
      · rw [if_neg htime] at h
        cases hfd : findDanglingDim scope v.dims with
        | none =>
          rw [hfd] at h
          exact ⟨v, (Except.ok.injEq .. ▸ h).symm⟩
        | some d' => rw [hfd] at h; cases h

theorem copy_vars_error_of_mem (scope : List String) (vs : List (String × NcVariable))
    (name : String) (v : NcVariable) (hmem : (name, v) ∈ vs)
    (hstep : (copy_vars_step scope name v).isOk = false) :
    (copy_vars scope vs).isOk = false := by
  induction vs with
  | nil => cases hmem
  | cons hd tl ih =>
    obtain ⟨n₀, v₀⟩ := hd
    rcases List.mem_cons.mp hmem with heq | htl
    · cases heq
      unfold copy_vars
      cases h0 : copy_vars_step scope name v with
      | error e => rfl
      | ok r => rw [h0] at hstep; cases hstep
    · unfold copy_vars
      cases h0 : copy_vars_step scope n₀ v₀ with
      | error e => rfl
      | ok r =>
        have htlerr := ih htl
        cases h1 : copy_vars scope tl with
        | error e => rfl
        | ok rest' => rw [h1] at htlerr; cases htlerr

theorem copy_vars_ok_names (scope : List String) (vs : List (String × NcVariable)) :
    ∀ out : List (String × NcVariable), copy_vars scope vs = Except.ok out →
      ∀ p ∈ out, p.1 ≠ "time" := by
  induction vs with
  | nil =>
    intro out h
    unfold copy_vars at h
    cases h
    intro p hp
    cases hp
  | cons hd tl ih =>
    intro out h
    obtain ⟨n₀, v₀⟩ := hd
    unfold copy_vars at h
    cases h0 : copy_vars_step scope n₀ v₀ with
    | error e => rw [h0] at h; cases h
    | ok r =>
      rw [h0] at h
      cases h1 : copy_vars scope tl with
      | error e => rw [h1] at h; cases h
      | ok rest' =>
        rw [h1] at h
        rcases copy_vars_step_shape scope n₀ v₀ r h0 with hr | ⟨hnt, v', hr⟩
        · subst hr
          cases h
          exact ih _ h1
        · subst hr
          cases h
          intro p hp
          rcases List.mem_cons.mp hp with hph | hp'
          · rw [hph]; exact hnt
          · exact ih _ h1 p hp'

theorem copy_vars_id (scope : List String) (vs : List (String × NcVariable))
    (h : ∀ p ∈ vs, p.1 ≠ "time" ∧ p.2.dims.contains "time" = false ∧
        findDanglingDim scope p.2.dims = none) :
    copy_vars scope vs = Except.ok vs := by
  induction vs with
  | nil => rfl
  | cons hd tl ih =>
    obtain ⟨n₀, v₀⟩ := hd
    obtain ⟨h1, h2, h3⟩ := h (n₀, v₀) (List.mem_cons_self _ _)
    unfold copy_vars
    rw [copy_vars_step_timeless scope n₀ v₀ h1 h2 h3,
      ih (fun p hp => h p (List.mem_cons_of_mem _ hp))]

theorem copy_vars_step_average (scope : List String) (name : String) (v : NcVariable)
    (hn : name ≠ "time") (hlat : name ≠ "lat") (hlon : name ≠ "lon")
    (ht : v.dims.contains "time" = true)
    (hres : findDanglingDim scope (v.dims.filter (fun d => decide (d ≠ "time"))) = none) :
    copy_vars_step scope name v = Except.ok (some (name,
      NcVariable.mk v.datatype (v.dims.filter (fun d => decide (d ≠ "time")))
        v.attrs (v.data.meanAxis (v.dims.indexOf "time")))) := by
  have hc : ¬ (name = "lat" ∨ name = "lon") := by
    rintro (h | h)
    · exact hlat h
    · exact hlon h
  unfold copy_vars_step
  rw [if_neg hn, if_neg hc, if_pos ht, hres]

theorem meanAxis_rank (a : NDArray) (t : Nat) (h : t < a.shape.length) :
    (a.meanAxis t).shape.length + 1 = a.shape.length := by
  unfold NDArray.meanAxis
  simp only [List.length_eraseIdx, h, if_pos]
  omega

theorem meanAxis_val (a : NDArray) (t : Nat) (ix : List Nat) :
    (a.meanAxis t).val ix = axisMean a t ix := rfl

theorem copy_dims_id (src : List (String × DimDef)) :
    ∀ dst : List (String × DimDef), (∀ p ∈ src, p.1 ≠ "time") →
      (src.map Prod.fst).Nodup → (∀ p ∈ src, p.1 ∉ dst.map Prod.fst) →
      copy_dims src dst = dst ++ src := by
  induction src with
  | nil => intro dst _ _ _; simp [copy_dims]
  | cons hd tl ih =>
    intro dst ht hnd hdisj
    obtain ⟨n, d⟩ := hd
    have hn : ¬ (n = "time") := ht (n, d) (List.mem_cons_self _ _)
    have hm : ¬ n ∈ dst.map Prod.fst := hdisj (n, d) (List.mem_cons_self _ _)
    simp only [List.map_cons, List.nodup_cons] at hnd
    unfold copy_dims
    rw [if_neg hn, if_neg hm, DimDef.copy_eq d]
    rw [ih (dst ++ [(n, d)]) (fun p hp => ht p (List.mem_cons_of_mem _ hp)) hnd.2 ?_]
    · simp
    · intro p hp
      rw [List.map_append]
      intro hmem
      rcases List.mem_append.mp hmem with h1 | h2
      · exact hdisj p (List.mem_cons_of_mem _ hp) h1
      · simp only [List.map_cons, List.map_nil, List.mem_cons,
          List.not_mem_nil, or_false] at h2
        exact hnd.1 (h2 ▸ List.mem_map_of_mem Prod.fst hp)

mutual
theorem recursive_copy_sameTopo (env : List String) (g : NcGroup) (g' : NcGroup)
    (h : recursive_copy env g = Except.ok g') : sameTopo g' g = true :=
  match g with
  | NcGroup.mk attrs dims vs children => by
    unfold recursive_copy at h
    cases h1 : copy_vars ((copy_dims dims []).map Prod.fst ++ env) vs with
    | error e => rw [h1] at h; cases h
    | ok dst_vars =>
      rw [h1] at h
      cases h2 : copy_children ((copy_dims dims []).map Prod.fst ++ env) children with
      | error e => rw [h2] at h; cases h
      | ok dst_children =>
        rw [h2] at h
        cases h
        unfold sameTopo
        exact copy_children_sameTopo _ children dst_children h2

theorem copy_children_sameTopo (env : List String) (c : NcChildren) (c' : NcChildren)
    (h : copy_children env c = Except.ok c') : sameTopoChildren c' c = true :=
  match c with
  | NcChildren.nil => by
    unfold copy_children at h
    cases h
    rfl
  | NcChildren.cons name g rest => by
    unfold copy_children at h
    cases h1 : recursive_copy env g with
    | error e => rw [h1] at h; cases h
    | ok g' =>
      rw [h1] at h
      cases h2 : copy_children env rest with
      | error e => rw [h2] at h; cases h
      | ok rest' =>
        rw [h2] at h
        cases h
        unfold sameTopoChildren
        rw [recursive_copy_sameTopo env g g' h1, copy_children_sameTopo env rest rest' h2]
        simp
end

mutual
theorem recursive_copy_noTime (env : List String) (g : NcGroup) (g' : NcGroup)
    (h : recursive_copy env g = Except.ok g') : noTimeNames g' = true :=
  match g with
  | NcGroup.mk attrs dims vs children => by
    unfold recursive_copy at h
    cases h1 : copy_vars ((copy_dims dims []).map Prod.fst ++ env) vs with
    | error e => rw [h1] at h; cases h
    | ok dst_vars =>
      rw [h1] at h
      cases h2 : copy_children ((copy_dims dims []).map Prod.fst ++ env) children with
      | error e => rw [h2] at h; cases h
      | ok dst_children =>
        rw [h2] at h
        cases h
        unfold noTimeNames
        rw [Bool.and_eq_true, Bool.and_eq_true]
        refine ⟨⟨?_, ?_⟩, ?_⟩
        · rw [List.all_eq_true]
          intro p hp
          exact decide_eq_true (copy_dims_no_time dims [] (by intro q hq; cases hq) p hp)
        · rw [List.all_eq_true]
          intro p hp
          exact decide_eq_true (copy_vars_ok_names _ vs dst_vars h1 p hp)
        · exact copy_children_noTime _ children dst_children h2

theorem copy_children_noTime (env : List String) (c : NcChildren) (c' : NcChildren)
    (h : copy_children env c = Except.ok c') : noTimeNamesChildren c' = true :=
  match c with
  | NcChildren.nil => by
    unfold copy_children at h
    cases h
    rfl
  | NcChildren.cons name g rest => by
    unfold copy_children at h
    cases h1 : recursive_copy env g with
    | error e => rw [h1] at h; cases h
    | ok g' =>
      rw [h1] at h
      cases h2 : copy_children env rest with
      | error e => rw [h2] at h; cases h
      | ok rest' =>
        rw [h2] at h
        cases h
        unfold noTimeNamesChildren
        rw [Bool.and_eq_true]
        exact ⟨recursive_copy_noTime env g g' h1, copy_children_noTime env rest rest' h2⟩
end

mutual
theorem recursive_copy_dangle (env scope : List String) (g : NcGroup)
    (hsub : ∀ x, x ∈ env → x ∈ scope)
    (hbad : hasDanglingStrict scope g = true) :
    (recursive_copy env g).isOk = false :=
  match g with
  | NcGroup.mk attrs dims vs children => by
    unfold hasDanglingStrict at hbad
    unfold recursive_copy
    have hsub' : ∀ x, x ∈ (copy_dims dims []).map Prod.fst ++ env →
        x ∈ dims.map Prod.fst ++ scope := by
      intro x hx
      rcases List.mem_append.mp hx with h1 | h2
      · rcases copy_dims_keys_subset dims [] x h1 with h | h
        · simp at h
        · exact List.mem_append.mpr (Or.inl h)
      · exact List.mem_append.mpr (Or.inr (hsub x h2))
    rw [Bool.or_eq_true] at hbad
    rcases hbad with hvar | hch
    · rw [List.any_eq_true] at hvar
      obtain ⟨p, hp, hcond⟩ := hvar
      rw [Bool.and_eq_true] at hcond
      obtain ⟨hname, hdim⟩ := hcond
      rw [decide_eq_true_eq] at hname
      rw [List.any_eq_true] at hdim
      obtain ⟨d, hd, hdc⟩ := hdim
      rw [Bool.and_eq_true, decide_eq_true_eq, decide_eq_true_eq] at hdc
      obtain ⟨hdt, hdscope⟩ := hdc
      have hdnot : d ∉ (copy_dims dims []).map Prod.fst ++ env :=
        fun hmem => hdscope (hsub' d hmem)
      have hstep := copy_vars_step_dangle ((copy_dims dims []).map Prod.fst ++ env)
        p.1 p.2 d hname hd hdt hdnot
      have herr := copy_vars_error_of_mem ((copy_dims dims []).map Prod.fst ++ env)
        vs p.1 p.2 (by simpa using hp) hstep
      cases h1 : copy_vars ((copy_dims dims []).map Prod.fst ++ env) vs with
      | error e => rfl
      | ok dst_vars => rw [h1] at herr; cases herr
    · cases h1 : copy_vars ((copy_dims dims []).map Prod.fst ++ env) vs with
      | error e => rfl
      | ok dst_vars =>
        have herr := copy_children_dangle ((copy_dims dims []).map Prod.fst ++ env)
          (dims.map Prod.fst ++ scope) children hsub' hch
        cases h2 : copy_children ((copy_dims dims []).map Prod.fst ++ env) children with
        | error e => rfl
        | ok dst_children => rw [h2] at herr; cases herr

theorem copy_children_dangle (env scope : List String) (c : NcChildren)
    (hsub : ∀ x, x ∈ env → x ∈ scope)
    (hbad : hasDanglingStrictChildren scope c = true) :
    (copy_children env c).isOk = false :=
  match c with
  | NcChildren.nil => by
    unfold hasDanglingStrictChildren at hbad
    cases hbad
  | NcChildren.cons name g rest => by
    unfold hasDanglingStrictChildren at hbad
    rw [Bool.or_eq_true] at hbad
    unfold copy_children
    rcases hbad with hg | hrest
    · have herr := recursive_copy_dangle env scope g hsub hg
      cases h1 : recursive_copy env g with
      | error e => rfl
      | ok g' => rw [h1] at herr; cases herr
    · cases h1 : recursive_copy env g with
      | error e => rfl
      | ok g' =>
        have herr := copy_children_dangle env scope rest hsub hrest
        cases h2 : copy_children env rest with
        | error e => rfl
        | ok rest' => rw [h2] at herr; cases herr
end

mutual
theorem recursive_copy_id (env : List String) (g : NcGroup)
    (h : pureCopyCond env g = true) : recursive_copy env g = Except.ok g :=
  match g with
  | NcGroup.mk attrs dims vs children => by
    unfold pureCopyCond at h
    rw [Bool.and_eq_true, Bool.and_eq_true, Bool.and_eq_true] at h
    obtain ⟨⟨⟨hdt, hnd⟩, hv⟩, hch⟩ := h
    rw [List.all_eq_true] at hdt
    rw [decide_eq_true_eq] at hnd
    have hdims : copy_dims dims [] = dims := by
      rw [copy_dims_id dims []
        (fun p hp => decide_eq_true_eq.mp (hdt p hp)) hnd
        (fun p _ => by simp)]
      simp
    unfold recursive_copy
    rw [hdims]
    rw [copy_vars_id (dims.map Prod.fst ++ env) vs ?_]
    · rw [copy_children_id (dims.map Prod.fst ++ env) children hch]
    · intro p hp
      rw [List.all_eq_true] at hv
      have := hv p hp
      rw [Bool.and_eq_true, Bool.and_eq_true] at this
      obtain ⟨⟨h1, h2⟩, h3⟩ := this
      refine ⟨decide_eq_true_eq.mp h1, ?_, ?_⟩
      · rw [Bool.not_eq_true'] at h2
        exact h2
      · rw [findDanglingDim_none_iff]
        intro d hd
        rw [List.all_eq_true] at h3
        exact decide_eq_true_eq.mp (h3 d hd)

theorem copy_children_id (env : List String) (c : NcChildren)
    (h : pureCopyCondChildren env c = true) : copy_children env c = Except.ok c :=
  match c with
  | NcChildren.nil => by
    unfold copy_children
    rfl
  | NcChildren.cons name g rest => by
    unfold pureCopyCondChildren at h
    rw [Bool.and_eq_true] at h
    unfold copy_children
    rw [recursive_copy_id env g h.1, copy_children_id env rest h.2]
end

theorem preservesSrc_pure {α : Type} (a : α) : PreservesSrc (NcM.pure a) :=
  fun _ => rfl

theorem preservesSrc_bind {α β : Type} (m : NcM α) (f : α → NcM β)
    (hm : PreservesSrc m) (hf : ∀ a, PreservesSrc (f a)) :
    PreservesSrc (NcM.bind m f) := by
  intro s
  unfold NcM.bind
  cases hms : m s with
  | mk r s₁ =>
    have h1 : s₁.src = s.src := by
      have h := hm s
      rw [hms] at h
      exact h
    cases r with
    | error e => exact h1
    | ok a =>
      have h2 := hf a s₁
      calc ((f a s₁).2).src = s₁.src := h2
        _ = s.src := h1

theorem preservesSrc_readGroup (side : Side) (path : GroupPath) :
    PreservesSrc (readGroup side path) := by
  intro s
  unfold readGroup
  cases getGroup (sideRoot s side) path <;> rfl

theorem preservesSrc_modifyDst (path : GroupPath) (f : NcGroup → NcGroup) :
    PreservesSrc (modifyGroup Side.dst path f) :=
  fun _ => rfl

theorem preservesSrc_setncatts (path : GroupPath) (a : AttrMap) :
    PreservesSrc (setncatts Side.dst path a) :=
  preservesSrc_modifyDst path _

theorem preservesSrc_createDimension (path : GroupPath) (name : String) (d : DimDef) :
    PreservesSrc (createDimension Side.dst path name d) :=
  preservesSrc_modifyDst path _

theorem preservesSrc_createGroup (path : GroupPath) (name : String) :
    PreservesSrc (createGroup Side.dst path name) :=
  preservesSrc_modifyDst path _

theorem preservesSrc_setVarAttrs (path : GroupPath) (name : String) (a : AttrMap) :
    PreservesSrc (setVarAttrs Side.dst path name a) :=
  preservesSrc_modifyDst path _

theorem preservesSrc_writeVar (path : GroupPath) (name : String) (data : NDArray) :
    PreservesSrc (writeVar Side.dst path name data) :=
  preservesSrc_modifyDst path _

theorem preservesSrc_createVariable (path : GroupPath) (name : String)
    (dt : String) (dims : List String) :
    PreservesSrc (createVariable Side.dst path name dt dims) := by
  intro s
  unfold createVariable
  cases findDanglingDim (pathScope (sideRoot s Side.dst) path) dims with
  | some d => rfl
  | none => exact preservesSrc_modifyDst path _ s

theorem preservesSrc_copy_dims_loop (dstPath : GroupPath)
    (l : List (String × DimDef)) : PreservesSrc (copy_dims_loop dstPath l) := by
  induction l with
  | nil => exact preservesSrc_pure ()
  | cons hd tl ih =>
    obtain ⟨n, d⟩ := hd
    unfold copy_dims_loop
    by_cases hn : n = "time"
    · rw [if_pos hn]
      exact ih
    · rw [if_neg hn]
      apply preservesSrc_bind _ _ (preservesSrc_readGroup Side.dst dstPath)
      intro g
      by_cases hm : n ∈ g.dimensions.map Prod.fst
      · rw [if_pos hm]
        exact ih
      · rw [if_neg hm]
        exact preservesSrc_bind _ _ (preservesSrc_createDimension dstPath n _)
          (fun _ => ih)

theorem preservesSrc_copy_vars_loop (dstPath : GroupPath)
    (l : List (String × NcVariable)) : PreservesSrc (copy_vars_loop dstPath l) := by
  induction l with
  | nil => exact preservesSrc_pure ()
  | cons hd tl ih =>
    obtain ⟨n, v⟩ := hd
    unfold copy_vars_loop
    by_cases hn : n = "time"
    · rw [if_pos hn]
      exact ih
    · rw [if_neg hn]
      by_cases hc : n = "lat" ∨ n = "lon"
      · rw [if_pos hc]
        exact preservesSrc_bind _ _ (preservesSrc_createVariable dstPath n _ _)
          (fun _ => preservesSrc_bind _ _ (preservesSrc_setVarAttrs dstPath n _)
            (fun _ => preservesSrc_bind _ _ (preservesSrc_writeVar dstPath n _)
              (fun _ => ih)))
      · rw [if_neg hc]
        by_cases ht : v.dims.contains "time" = true
        · rw [if_pos ht]
          exact preservesSrc_bind _ _ (preservesSrc_createVariable dstPath n _ _)
            (fun _ => preservesSrc_bind _ _ (preservesSrc_setVarAttrs dstPath n _)
              (fun _ => preservesSrc_bind _ _ (preservesSrc_writeVar dstPath n _)
                (fun _ => ih)))
        · rw [if_neg ht]
          exact preservesSrc_bind _ _ (preservesSrc_createVariable dstPath n _ _)
            (fun _ => preservesSrc_bind _ _ (preservesSrc_setVarAttrs dstPath n _)
              (fun _ => preservesSrc_bind _ _ (preservesSrc_writeVar dstPath n _)
                (fun _ => ih)))

mutual
theorem preservesSrc_recursive_copy_imp (g : NcGroup) (dstPath : GroupPath) :
    PreservesSrc (recursive_copy_imp g dstPath) :=
  match g with
  | NcGroup.mk attrs dims vs children => by
    unfold recursive_copy_imp
    exact preservesSrc_bind _ _ (preservesSrc_setncatts dstPath attrs)
      (fun _ => preservesSrc_bind _ _ (preservesSrc_copy_dims_loop dstPath dims)
        (fun _ => preservesSrc_bind _ _ (preservesSrc_copy_vars_loop dstPath vs)
          (fun _ => preservesSrc_copy_children_imp children dstPath)))

theorem preservesSrc_copy_children_imp (c : NcChildren) (dstPath : GroupPath) :
    PreservesSrc (copy_children_imp c dstPath) :=
  match c with
  | NcChildren.nil => by
    unfold copy_children_imp
    exact preservesSrc_pure ()
  | NcChildren.cons name subgrp rest => by
    unfold copy_children_imp
    exact preservesSrc_bind _ _ (preservesSrc_createGroup dstPath name)
      (fun _ => preservesSrc_bind _ _
        (preservesSrc_recursive_copy_imp subgrp (dstPath ++ [name]))
        (fun _ => preservesSrc_copy_children_imp rest dstPath))
end

theorem preservesSrc_averageFile : PreservesSrc averageFile :=
  preservesSrc_bind _ _ (preservesSrc_readGroup Side.src [])
    (fun root => preservesSrc_recursive_copy_imp root [])

/-- C1: for every variable whose dimension tuple contains "time" and whose
name is neither "time" nor in the allow-list {"lat", "lon"}, the destination
variable keeps the name, datatype and attributes, its dimension tuple is the
source tuple with "time" removed (relative order preserved), the destination
array has exactly one fewer axis than the source array, and at every index
tuple the destination value is the unweighted arithmetic mean of the source
values along the axis position "time" occupied in the source tuple.  The
shape hypothesis states that the array's rank matches its declared dimension
tuple (true of every actual netCDF variable); the resolution hypothesis
states that the remaining dimensions resolve in the destination scope. -/
theorem claim_C1_time_variable_averaged (scope : List String) (name : String)
    (v : NcVariable) (hn : name ≠ "time") (hlat : name ≠ "lat") (hlon : name ≠ "lon")
    (ht : v.dims.contains "time" = true)
    (hrank : v.data.shape.length = v.dims.length)
    (hres : findDanglingDim scope (v.dims.filter (fun d => decide (d ≠ "time"))) = none) :
    copy_vars_step scope name v = Except.ok (some (name,
      NcVariable.mk v.datatype (v.dims.filter (fun d => decide (d ≠ "time")))
        v.attrs (v.data.meanAxis (v.dims.indexOf "time")))) ∧
    (v.data.meanAxis (v.dims.indexOf "time")).shape.length + 1 = v.data.shape.length ∧
    ∀ ix, (v.data.meanAxis (v.dims.indexOf "time")).val ix =
      axisMean v.data (v.dims.indexOf "time") ix := by
  refine ⟨copy_vars_step_average scope name v hn hlat hlon ht hres, ?_, fun ix => rfl⟩
  apply meanAxis_rank
  rw [hrank]
  exact List.indexOf_lt_length.mpr (by simpa using ht)

/-- Witness for C1 on a concrete (time, lat) precipitation variable. -/
theorem claim_C1_witness :
    (("precipitation" : String) ≠ "time" ∧ ("precipitation" : String) ≠ "lat" ∧
      ("precipitation" : String) ≠ "lon" ∧ exVarC1.dims.contains "time" = true ∧
      exVarC1.data.shape.length = exVarC1.dims.length ∧
      findDanglingDim ["lat"] (exVarC1.dims.filter (fun d => decide (d ≠ "time"))) = none) ∧
    copy_vars_step ["lat"] "precipitation" exVarC1 = Except.ok (some ("precipitation",
      NcVariable.mk exVarC1.datatype (exVarC1.dims.filter (fun d => decide (d ≠ "time")))
        exVarC1.attrs (exVarC1.data.meanAxis (exVarC1.dims.indexOf "time")))) ∧
    (exVarC1.data.meanAxis (exVarC1.dims.indexOf "time")).shape.length + 1 =
      exVarC1.data.shape.length ∧
    ∀ ix, (exVarC1.data.meanAxis (exVarC1.dims.indexOf "time")).val ix =
      axisMean exVarC1.data (exVarC1.dims.indexOf "time") ix :=
  ⟨⟨by decide, by decide, by decide, rfl, rfl, rfl⟩,
    claim_C1_time_variable_averaged ["lat"] "precipitation" exVarC1
      (by decide) (by decide) (by decide) rfl rfl rfl⟩

/-- C2: whenever the averaging operation succeeds, the destination tree has
exactly the same group topology as the source tree: same group names, same
nesting, each destination child attached under the destination counterpart of
its source parent. -/
theorem claim_C2_topology_preserved (src dst : NcGroup)
    (h : average src = Except.ok dst) : sameTopo dst src = true :=
  recursive_copy_sameTopo [] src dst h

/-- Witness for C2 on a concrete two-level tree. -/
theorem claim_C2_witness :
    average exGroupC2 = Except.ok exGroupC2 ∧ sameTopo exGroupC2 exGroupC2 = true :=
  ⟨rfl, claim_C2_topology_preserved exGroupC2 exGroupC2 rfl⟩

/-- C3: a variable whose dimension tuple does not contain "time" and whose
name is not "time" is copied verbatim whenever its dimensions resolve: the
destination entry is literally the source pair, hence same datatype, same
dimension tuple, equal attribute map and equal values at every index. -/
theorem claim_C3_timeless_copied_verbatim (scope : List String) (name : String)
    (v : NcVariable) (hn : name ≠ "time") (ht : v.dims.contains "time" = false)
    (hres : findDanglingDim scope v.dims = none) :
    copy_vars_step scope name v = Except.ok (some (name, v)) :=
  copy_vars_step_timeless scope name v hn ht hres

/-- Witness for C3 on a concrete latitude-shaped variable. -/
theorem claim_C3_witness :
    (("surface_pressure" : String) ≠ "time" ∧ exVarC3.dims.contains "time" = false ∧
      findDanglingDim ["lat"] exVarC3.dims = none) ∧
    copy_vars_step ["lat"] "surface_pressure" exVarC3 =
      Except.ok (some ("surface_pressure", exVarC3)) :=
  ⟨⟨by decide, rfl, rfl⟩,
    claim_C3_timeless_copied_verbatim ["lat"] "surface_pressure" exVarC3
      (by decide) rfl rfl⟩

/-- C4: whenever the averaging operation succeeds, no group of the
destination tree contains a dimension named "time" or a variable named
"time": both are dropped at every level and never created. -/
theorem claim_C4_no_time_in_destination (src dst : NcGroup)
    (h : average src = Except.ok dst) : noTimeNames dst = true :=
  recursive_copy_noTime [] src dst h

/-- Witness for C4 on a concrete tree holding a time dimension and a time
coordinate variable. -/
theorem claim_C4_witness :
    average exGroupC4 = Except.ok dstGroupC4 ∧ noTimeNames dstGroupC4 = true :=
  ⟨rfl, claim_C4_no_time_in_destination exGroupC4 dstGroupC4 rfl⟩

/-- Counterexample to C5 as stated: in `exGroupC5` the allow-listed variable
"lat" has dimension tuple ["time"].  The claim says it is copied verbatim
"regardless of whether its dimension tuple references the reduction
dimension", but the code never creates a "time" dimension in the destination,
so `createVariable` cannot resolve the tuple and the whole operation fails:
no destination variable exists at all. -/
theorem claim_C5_counterexample :
    exGroupC5.vars.any (fun p => decide (p.1 = "lat") && p.2.dims.contains "time") = true ∧
    average exGroupC5 = Except.error (NcError.structuralError "time") :=
  ⟨rfl, rfl⟩

/-- C5 as amended: an allow-listed variable ("lat" or "lon") is copied
verbatim — same datatype, dimension tuple, attributes and values — whenever
the operation does not fail on it, i.e. whenever all its declared dimensions
resolve in the destination scope (which never contains "time"). -/
theorem claim_C5_allowlist_copied_verbatim (scope : List String) (name : String)
    (v : NcVariable) (hc : name = "lat" ∨ name = "lon")
    (hres : findDanglingDim scope v.dims = none) :
    copy_vars_step scope name v = Except.ok (some (name, v)) :=
  copy_vars_step_allowlist scope name v hc hres

/-- Witness for the amended C5 on a concrete latitude coordinate variable. -/
theorem claim_C5_witness :
    ((("lat" : String) = "lat" ∨ ("lat" : String) = "lon") ∧
      findDanglingDim ["lat", "lon"] exVarC5.dims = none) ∧
    copy_vars_step ["lat", "lon"] "lat" exVarC5 = Except.ok (some ("lat", exVarC5)) :=
  ⟨⟨Or.inl rfl, rfl⟩,
    claim_C5_allowlist_copied_verbatim ["lat", "lon"] "lat" exVarC5 (Or.inl rfl) rfl⟩

/-- Counterexample to C6 as stated: `exGroupC6` contains a variable (named
"time") that declares the dimension "depth", which resolves nowhere in the
tree.  The claim says any such dangling reference makes the operation fail,
but the code drops every variable named "time" before validating its
dimensions, so the operation succeeds. -/
theorem claim_C6_counterexample :
    hasDanglingAny [] exGroupC6 = true ∧
    average exGroupC6 = Except.ok (NcGroup.mk [] [] [] NcChildren.nil) :=
  ⟨rfl, rfl⟩

/-- C6 as amended: if any variable whose name is not "time" declares a
dimension name other than "time" that does not resolve to a dimension of its
own group or any ancestor group, the operation fails with a StructuralError
and returns no destination tree.  (A variable named "time" is dropped without
validation, and a dangling "time" reference is removed by the averaging
branch rather than detected.) -/
theorem claim_C6_dangling_dim_fails (src : NcGroup)
    (hbad : hasDanglingStrict [] src = true) :
    ∃ d, average src = Except.error (NcError.structuralError d) := by
  have h := recursive_copy_dangle [] [] src (fun x hx => hx) hbad
  cases hav : average src with
  | error e =>
    cases e with
    | structuralError d => exact ⟨d, rfl⟩
  | ok g =>
    unfold average at hav
    rw [hav] at h
    cases h

/-- Witness for the amended C6 on a concrete tree with a dangling "depth"
reference. -/
theorem claim_C6_witness :
    hasDanglingStrict [] exGroupC6w = true ∧
    ∃ d, average exGroupC6w = Except.error (NcError.structuralError d) :=
  ⟨rfl, claim_C6_dangling_dim_fails exGroupC6w rfl⟩

/-- Counterexample to C7 as stated: `exGroupC7` contains no dimension and no
variable named "time", yet it is not a fixed point of the operation, because
a variable's dimension tuple still references "time" (a dangling reference
the claim's condition does not exclude): the code averages that variable and
removes "time" from its tuple, so the destination differs from the source
already in the root variables' dimension tuples. -/
theorem claim_C7_counterexample :
    noTimeNames exGroupC7 = true ∧
    (average exGroupC7).toOption.map rootVarDims ≠ some (rootVarDims exGroupC7) :=
  ⟨rfl, by decide⟩

/-- C7 as amended: on a well-formed, already-averaged source — no dimension
or variable named "time", no variable's dimension tuple referencing "time",
per-group dimension names unique (they are dict keys), and every variable's
dimensions resolving in its own group or an ancestor — the operation is a
pure structural copy: it returns exactly the source tree, so a second
application returns the first application's output. -/
theorem claim_C7_already_averaged_identity (src : NcGroup)
    (h : pureCopyCond [] src = true) : average src = Except.ok src :=
  recursive_copy_id [] src h

/-- Witness for the amended C7 on a concrete already-averaged tree. -/
theorem claim_C7_witness :
    pureCopyCond [] exGroupC7w = true ∧ average exGroupC7w = Except.ok exGroupC7w :=
  ⟨rfl, claim_C7_already_averaged_identity exGroupC7w rfl⟩

/-- C8: for every group's dimension dictionary, a dimension whose name is not
"time" is copied into the destination with its size or unlimited marker
unchanged (the destination's first binding for that name equals the source's
first binding), except that a name already present in the destination is
skipped silently as a no-op: the destination's binding and even the number of
its entries for that name are unchanged.  `copy_dims` is a total function, so
the skip can never raise an error. -/
theorem claim_C8_dims_copied (src dst : List (String × DimDef)) (name : String)
    (hn : name ≠ "time") :
    (name ∈ dst.map Prod.fst →
      (copy_dims src dst).lookup name = dst.lookup name ∧
      (copy_dims src dst).countP (fun p => p.1 == name) =
        dst.countP (fun p => p.1 == name)) ∧
    (name ∉ dst.map Prod.fst → (src.lookup name).isSome →
      (copy_dims src dst).lookup name = src.lookup name) :=
  ⟨fun h => ⟨copy_dims_lookup_stable src dst name h,
      copy_dims_countP_stable src dst name h⟩,
    fun h hs => copy_dims_new src dst name hn h hs⟩

/-- Witness for C8: "lon" is new to the destination and is copied with its
size unchanged. -/
theorem claim_C8_witness :
    (("lon" : String) ≠ "time" ∧ ("lon" : String) ∉ exDimsC8dst.map Prod.fst ∧
      (exDimsC8src.lookup "lon").isSome = true) ∧
    (copy_dims exDimsC8src exDimsC8dst).lookup "lon" = exDimsC8src.lookup "lon" :=
  ⟨⟨by decide, by decide, rfl⟩,
    (claim_C8_dims_copied exDimsC8src exDimsC8dst "lon" (by decide)).2
      (by decide) rfl⟩

/-- C9: the traversal never mutates the source file.  In the imperative
embedding every netCDF call is a state action that may address either open
file; after the whole operation runs — to completion or up to an abort, since
the state at an abort is retained — the source tree, with all its groups,
dimensions, variables, attributes and values, equals its initial state; the
destination is the only component ever written. -/
theorem claim_C9_source_not_mutated (s : FileState) :
    ((averageFile s).2).src = s.src :=
  preservesSrc_averageFile s

/-- C10: the operation is deterministic: two runs on source trees with equal
content (the model's trees capture groups, dimensions, variables, attributes,
values and their enumeration order) produce equal destination results. -/
theorem claim_C10_deterministic (s₁ s₂ : NcGroup) (h : s₁ = s₂) :
    average s₁ = average s₂ := by
  rw [h]

/-- Witness for C10 on a concrete tree. -/
theorem claim_C10_witness :
    exGroupC10 = exGroupC10 ∧ average exGroupC10 = average exGroupC10 :=
  ⟨rfl, claim_C10_deterministic exGroupC10 exGroupC10 rfl⟩
